import Mathlib

/-!
Formal model of the GAUSSIAN FCHK reader (`iodata/fchk.py`) and proofs of its
specified properties.

Conventions of the embedding:
* Python strings (lines of the input file, labels, tokens, filenames) are
  modelled as `List Char`.  The input stream handed to `read_field` is the
  list of remaining lines, each without its trailing newline; `readline`
  returning `""` at end of file corresponds to the empty list.
* Python ints are `ℤ`, floats are exact decimal values (`DecNum`, a
  mantissa/exponent pair) inside the scanner and `ℚ` in the post-parse
  reconstruction code, where no arithmetic is performed on them.
* numpy arrays are `List`s; boolean masking, slicing and reshaping are spelled
  out with `take`/`drop`/`zip`/`map`.
* Raised exceptions are modelled with `Except`/`Option`: a `.error`/`none`
  result is a Python exception escaping the function under scrutiny.
-/

namespace Iodata

/-! ### Char-list string helpers (Python `str.strip`, `str.split`, slicing) -/

/-- Python `str.strip()`: drop whitespace from both ends. -/
def trimWs (cs : List Char) : List Char :=
  ((cs.dropWhile Char.isWhitespace).reverse.dropWhile Char.isWhitespace).reverse

/-- Helper for `splitWs`: accumulate the current word (reversed) while
scanning. -/
def splitWsAux : List Char → List Char → List (List Char)
  | [], acc => if acc.isEmpty then [] else [acc.reverse]
  | c :: cs, acc =>
    if c.isWhitespace then
      if acc.isEmpty then splitWsAux cs [] else acc.reverse :: splitWsAux cs []
    else splitWsAux cs (c :: acc)

/-- Python `str.split()` with no argument: split on runs of whitespace,
producing no empty words. -/
def splitWs (cs : List Char) : List (List Char) := splitWsAux cs []

/-- Numeric value of a list of decimal digits (callers validate digits). -/
def digitsNat (cs : List Char) : ℕ := cs.foldl (fun acc c => 10 * acc + (c.toNat - 48)) 0

/-- Python `int(token)` on a whitespace-free token: optional sign followed by
at least one digit. -/
def chInt (cs : List Char) : Option ℤ :=
  match cs with
  | '-' :: t => if !t.isEmpty && t.all Char.isDigit then some (-(digitsNat t : ℤ)) else none
  | '+' :: t => if !t.isEmpty && t.all Char.isDigit then some ((digitsNat t : ℤ)) else none
  | t => if !t.isEmpty && t.all Char.isDigit then some ((digitsNat t : ℤ)) else none

/-- Exact value of a decimal floating-point token: `mant * 10 ^ exp`.
Equality of `DecNum`s is representation equality, which is all the reader
ever needs (the loader never computes with the parsed floats). -/
structure DecNum where
  mant : ℤ
  exp : ℤ
  deriving DecidableEq

/-- Python `float(token)` on a finite decimal token: optional sign, digits
with an optional fractional part, and an optional `e`/`E` exponent. -/
def chFloat (cs : List Char) : Option DecNum :=
  let sgn : ℤ := match cs with | '-' :: _ => -1 | _ => 1
  let cs1 := match cs with | '-' :: t => t | '+' :: t => t | t => t
  let ip := cs1.takeWhile Char.isDigit
  let cs2 := cs1.dropWhile Char.isDigit
  let fp := match cs2 with | '.' :: t => t.takeWhile Char.isDigit | _ => []
  let cs3 := match cs2 with | '.' :: t => t.dropWhile Char.isDigit | t => t
  if ip.isEmpty && fp.isEmpty then none
  else
    let mant := sgn * (digitsNat (ip ++ fp) : ℤ)
    match cs3 with
    | [] => some ⟨mant, -(fp.length : ℤ)⟩
    | e :: t =>
      if e = 'e' || e = 'E' then
        let esgn : ℤ := match t with | '-' :: _ => -1 | _ => 1
        let t2 := match t with | '-' :: t3 => t3 | '+' :: t3 => t3 | t3 => t3
        if !t2.isEmpty && t2.all Char.isDigit then
          some ⟨mant, esgn * (digitsNat t2 : ℤ) - (fp.length : ℤ)⟩
        else none
      else none

/-- Conversion performed by assigning `int(word)` into an `np.int64` cell:
parse failure (`ValueError`) and 64-bit overflow (`OverflowError`) are both
fatal in `read_field`'s array fill, so both are `none` here. -/
def npInt (cs : List Char) : Option ℤ :=
  (chInt cs).bind (fun v => if -(2 ^ 63) ≤ v ∧ v < 2 ^ 63 then some v else none)

/-! ### The field scanner (`FCHKFile._read` / `read_field`) -/

/-- The two datatypes a field header can declare: `I` (int) and `R` (float). -/
inductive DType where
  | i
  | r
  deriving DecidableEq

/-- One parsed numeric cell. -/
inductive Elem where
  | iv (n : ℤ)
  | rv (d : DecNum)
  deriving DecidableEq

/-- A stored field value: scalar or array. -/
inductive FVal where
  | scalar (e : Elem)
  | arr (es : List Elem)
  deriving DecidableEq

/-- A field label (first 43 columns of a header line, stripped). -/
abbrev Label := List Char

/-- The `FCHKFile` dict contents: insertion-ordered label/value pairs. -/
abbrev Store := List (Label × FVal)

/-- Python dict assignment `self[label] = value`: overwrite in place if the
key exists, else append. -/
def storeSet (st : Store) (k : Label) (v : FVal) : Store :=
  if st.any (fun p => p.1 = k) then st.map (fun p => if p.1 = k then (k, v) else p)
  else st ++ [(k, v)]

/-- Scalar conversion `datatype(words[1])` with plain Python `int`/`float`. -/
def pyConv : DType → List Char → Option Elem
  | .i, cs => (chInt cs).map .iv
  | .r, cs => (chFloat cs).map .rv

/-- Cell conversion during the array fill (`value[counter] = datatype(word)`),
including the `np.int64` overflow case. -/
def npConv : DType → List Char → Option Elem
  | .i, cs => (npInt cs).map .iv
  | .r, cs => (chFloat cs).map .rv

/-- Exceptions that can escape the scanner. -/
inductive ScanError where
  | typeError
  | malformedHeader (filename : List Char)
  | unexpectedLine (filename : List Char)
  | unexpectedEOF (filename : List Char)
  | badToken (word : List Char) (filename : List Char)
  | indexError
  | valueError (token : List Char)
  deriving DecidableEq

/-- Result of the header-scanning `while datatype is None` loop of
`read_field`. -/
inductive HeaderResult where
  | eofStop
  | skipCont (wanted : Option (List Label)) (rest : List (List Char))
  | found (dt : DType) (label : Label) (words : List (List Char))
      (wanted : Option (List Label)) (rest : List (List Char))
  deriving DecidableEq

/-- The `while datatype is None` loop of `read_field`: read a line, stop at
EOF, stop early when every wanted label has been consumed, skip lines whose
label is unwanted, skip headers with no tokens after column 43, and keep
scanning until a line typed `I` or `R` is found.  The wanted-label set is
threaded because Python mutates it in place (`field_labels.discard`). -/
def findHeader : List (List Char) → Option (List Label) → HeaderResult
  | [], _ => .eofStop
  | line :: rest, none =>
    match splitWs (line.drop 43) with
    | [] => .skipCont none rest
    | w :: ws =>
      if w = ['I'] then .found .i (trimWs (line.take 43)) (w :: ws) none rest
      else if w = ['R'] then .found .r (trimWs (line.take 43)) (w :: ws) none rest
      else findHeader rest none
  | line :: rest, some wl =>
    if wl.isEmpty then .eofStop
    else if trimWs (line.take 43) ∈ wl then
      let wl2 := wl.filter (fun x => x ≠ trimWs (line.take 43))
      match splitWs (line.drop 43) with
      | [] => .skipCont (some wl2) rest
      | w :: ws =>
        if w = ['I'] then .found .i (trimWs (line.take 43)) (w :: ws) (some wl2) rest
        else if w = ['R'] then .found .r (trimWs (line.take 43)) (w :: ws) (some wl2) rest
        else findHeader rest (some wl2)
    else .skipCont (some wl) rest

/-- The `for word in line.split()` body of the array fill.  The conversion of
the word happens before the bounds check because Python evaluates the
right-hand side of `value[counter] = datatype(word)` first; an out-of-range
`counter` then raises `IndexError` from the numpy cell assignment. -/
def fillWords (dt : DType) (fn : List Char) (len : ℕ) :
    List (List Char) → List Elem → Except ScanError (List Elem)
  | [], acc => .ok acc
  | w :: ws, acc =>
    match npConv dt w with
    | none => .error (.badToken w fn)
    | some e =>
      if acc.length < len then fillWords dt fn len ws (acc ++ [e])
      else .error .indexError

/-- The `while counter < length` loop of the array fill: read continuation
lines until `length` cells have been assigned, failing on premature EOF (the
`counter < length` guard is checked before each `readline`). -/
def fillLines (dt : DType) (fn : List Char) (len : ℕ) :
    List (List Char) → List Elem → Except ScanError (List Elem × List (List Char))
  | [], acc => if acc.length < len then .error (.unexpectedEOF fn) else .ok (acc, [])
  | line :: rest, acc =>
    if acc.length < len then
      match fillWords dt fn len (splitWs line) acc with
      | .error e => .error e
      | .ok acc2 => fillLines dt fn len rest acc2
    else .ok (acc, line :: rest)

/-- Outcome of one `read_field` call: `stop` models `return False`, `cont`
models `return True` (with the updated store, wanted set and stream), and
`fail` models an escaping exception. -/
inductive FieldOutcome where
  | stop
  | cont (store : Store) (wanted : Option (List Label)) (rest : List (List Char))
  | fail (e : ScanError)
  deriving DecidableEq

/-- One call of `read_field`: find a typed header line, then read a scalar
(2 tokens) or an array (3 tokens, `N=` marker).  A scalar whose value fails
to convert is silently skipped; any other token layout is a fatal
`IOError`. -/
def readField (fn : List Char) (wanted : Option (List Label)) (store : Store)
    (stream : List (List Char)) : FieldOutcome :=
  match findHeader stream wanted with
  | .eofStop => .stop
  | .skipCont wanted2 rest => .cont store wanted2 rest
  | .found dt label words wanted2 rest =>
    if words.length = 2 then
      match pyConv dt (words.getD 1 []) with
      | none => .cont store wanted2 rest
      | some e => .cont (storeSet store label (.scalar e)) wanted2 rest
    else if words.length = 3 then
      if words.getD 1 [] ≠ ['N', '='] then .fail (.unexpectedLine fn)
      else
        match chInt (words.getD 2 []) with
        | none => .fail (.valueError (words.getD 2 []))
        | some n =>
          if n < 0 then .fail (.valueError (words.getD 2 []))
          else
            match fillLines dt fn n.toNat rest [] with
            | .error e => .fail e
            | .ok (es, rest2) => .cont (storeSet store label (.arr es)) wanted2 rest2
    else .fail (.unexpectedLine fn)

theorem fillLines_stop (dt : DType) (fn : List Char) (len : ℕ) (stream : List (List Char))
    (acc : List Elem) (h : ¬ acc.length < len) :
    fillLines dt fn len stream acc = .ok (acc, stream) := by
  cases stream <;> simp [fillLines, h]

theorem fillLines_nil (dt : DType) (fn : List Char) (len : ℕ) (acc : List Elem)
    (h : acc.length < len) :
    fillLines dt fn len [] acc = .error (.unexpectedEOF fn) := by
  simp [fillLines, h]

theorem fillLines_cons (dt : DType) (fn : List Char) (len : ℕ) (line : List Char)
    (rest : List (List Char)) (acc : List Elem) (h : acc.length < len) :
    fillLines dt fn len (line :: rest) acc =
      match fillWords dt fn len (splitWs line) acc with
      | .error e => .error e
      | .ok acc2 => fillLines dt fn len rest acc2 := by
  simp [fillLines, h]

theorem fillLines_rest_le (dt : DType) (fn : List Char) (len : ℕ) :
    ∀ (stream : List (List Char)) (acc : List Elem) (es : List Elem)
      (rest : List (List Char)),
      fillLines dt fn len stream acc = .ok (es, rest) → rest.length ≤ stream.length := by
  intro stream
  induction stream with
  | nil =>
    intro acc es rest h
    by_cases hlt : acc.length < len
    · rw [fillLines_nil dt fn len acc hlt] at h
      exact absurd h (by simp)
    · rw [fillLines_stop dt fn len [] acc hlt] at h
      simp_all
  | cons line tail ih =>
    intro acc es rest h
    by_cases hlt : acc.length < len
    · rw [fillLines_cons dt fn len line tail acc hlt] at h
      cases hfw : fillWords dt fn len (splitWs line) acc with
      | error e =>
        rw [hfw] at h
        exact absurd h (by simp)
      | ok acc2 =>
        rw [hfw] at h
        have := ih acc2 es rest h
        simp only [List.length_cons]
        omega
    · rw [fillLines_stop dt fn len (line :: tail) acc hlt] at h
      simp at h
      simp [← h.2]

theorem findHeader_skip_lt :
    ∀ (stream : List (List Char)) (wanted wanted2 : Option (List Label))
      (rest : List (List Char)),
      findHeader stream wanted = .skipCont wanted2 rest → rest.length < stream.length := by
  intro stream
  induction stream with
  | nil =>
    intro wanted wanted2 rest h
    cases wanted <;> exact absurd h (by simp [findHeader])
  | cons line tail ih =>
    intro wanted wanted2 rest h
    cases wanted with
    | none =>
      rw [findHeader] at h
      revert h
      split
      · intro h
        cases h
        simp
      · split
        · intro h
          cases h
        · split
          · intro h
            cases h
          · intro h
            have := ih none wanted2 rest h
            simp at this ⊢
            omega
    | some wl =>
      rw [findHeader] at h
      revert h
      split
      · intro h
        cases h
      · split
        · split
          · intro h
            cases h
            simp
          · split
            · intro h
              cases h
            · split
              · intro h
                cases h
              · intro h
                have := ih _ wanted2 rest h
                simp at this ⊢
                omega
        · intro h
          cases h
          simp

theorem findHeader_found_lt :
    ∀ (stream : List (List Char)) (wanted : Option (List Label)) (dt : DType)
      (label : Label) (words : List (List Char)) (wanted2 : Option (List Label))
      (rest : List (List Char)),
      findHeader stream wanted = .found dt label words wanted2 rest →
      rest.length < stream.length := by
  intro stream
  induction stream with
  | nil =>
    intro wanted dt label words wanted2 rest h
    cases wanted <;> exact absurd h (by simp [findHeader])
  | cons line tail ih =>
    intro wanted dt label words wanted2 rest h
    cases wanted with
    | none =>
      rw [findHeader] at h
      revert h
      split
      · intro h
        cases h
      · split
        · intro h
          cases h
          simp
        · split
          · intro h
            cases h
            simp
          · intro h
            have := ih none dt label words wanted2 rest h
            simp at this ⊢
            omega
    | some wl =>
      rw [findHeader] at h
      revert h
      split
      · intro h
        cases h
      · split
        · split
          · intro h
            cases h
          · split
            · intro h
              cases h
              simp
            · split
              · intro h
                cases h
                simp
              · intro h
                have := ih _ dt label words wanted2 rest h
                simp at this ⊢
                omega
        · intro h
          cases h

theorem readField_cont_lt (fn : List Char) (wanted : Option (List Label)) (store : Store)
    (stream : List (List Char)) (store2 : Store) (wanted2 : Option (List Label))
    (rest : List (List Char)) :
    readField fn wanted store stream = .cont store2 wanted2 rest →
    rest.length < stream.length := by
  intro h
  rw [readField] at h
  revert h
  split
  · intro h
    cases h
  next wanted3 rest3 heq =>
    intro h
    cases h
    exact findHeader_skip_lt stream wanted _ _ heq
  next dt label words wanted3 rest3 heq =>
    have hlt := findHeader_found_lt stream wanted dt label words wanted3 rest3 heq
    split
    · split
      · intro h
        cases h
        exact hlt
      · intro h
        cases h
        exact hlt
    · split
      · split
        · intro h
          cases h
        · split
          · intro h
            cases h
          · split
            · intro h
              cases h
            · split
              · intro h
                cases h
              next es rest2 heq2 =>
                intro h
                cases h
                have := fillLines_rest_le _ _ _ rest3 [] es rest heq2
                omega
      · intro h
        cases h

/-- The `while read_field(f): pass` driver loop of `FCHKFile._read`. -/
def scanFields (fn : List Char) (stream : List (List Char)) (wanted : Option (List Label))
    (store : Store) : Except ScanError Store :=
  match h : readField fn wanted store stream with
  | .stop => .ok store
  | .fail e => .error e
  | .cont store2 wanted2 rest => scanFields fn rest wanted2 store2
termination_by stream.length
decreasing_by exact readField_cont_lt fn wanted store stream store2 wanted2 rest h

/-- What `FCHKFile._read` produces: the two header lines' data plus the field
store. -/
structure FchkResult where
  title : List Char
  command : List Char
  lot : List Char
  obasis : Option (List Char)
  fields : Store
  deriving DecidableEq

/-- The body of `FCHKFile._read`: first line is the title, second line must
split into two or three words (`command`, `lot`, optional `obasis`), then the
field-scanning loop runs over the remaining lines. -/
def fchkRead (fn : List Char) (lines : List (List Char)) (wanted : Option (List Label)) :
    Except ScanError FchkResult :=
  let title := trimWs (lines.headD [])
  let ws := splitWs (lines.getD 1 [])
  if ws.length = 3 then
    (scanFields fn (lines.drop 2) wanted []).map
      (fun st => ⟨title, ws.getD 0 [], ws.getD 1 [], some (ws.getD 2 []), st⟩)
  else if ws.length = 2 then
    (scanFields fn (lines.drop 2) wanted []).map
      (fun st => ⟨title, ws.getD 0 [], ws.getD 1 [], none, st⟩)
  else .error (.malformedHeader fn)

/-- `FCHKFile.__init__`: it calls `self._read(filename, set(field_labels))`
unconditionally, so the documented `field_labels=None` default raises
`TypeError` (`set(None)`) before anything is read; a provided list is
deduplicated by `set(...)`. -/
def fchkNew (fn : List Char) (lines : List (List Char))
    (field_labels : Option (List Label)) : Except ScanError FchkResult :=
  match field_labels with
  | none => .error .typeError
  | some ls => fchkRead fn lines (some ls.dedup)

/-! ### Basis reconstruction (`load`, section B) -/

/-- The five accumulator lists of `load`'s shell loop, with the slice lists
already concatenated (`np.concatenate`). -/
structure BasisRecon where
  shell_types : List ℤ
  shell_map : List ℤ
  nprims : List ℕ
  alphas : List ℚ
  con_coeffs : List ℚ
  deriving DecidableEq

/-- The `for i, n in enumerate(nprims)` loop of `load` section B.  `shells` is
the parallel data `(shell_types[i], shell_map[i], nprims[i])` (with
`shell_map` already shifted to 0-based), `counter` the running offset into the
flat primitive arrays.  An SP shell (`shell_types[i] == -1`) emits an S and a
P shell sharing the exponent slice, with coefficients from
`ccoeffs_level1`/`ccoeffs_level2`; `ccoeffs_level2 = None` (`fchk.get`
missing) makes the SP branch raise (`None[...]`), modelled as `none`.  The
Python appends build the lists left to right, which the cons-before-recursion
below reproduces; `counter` advances by `n` per original shell. -/
def reconShells (alphas cc1 : List ℚ) (cc2 : Option (List ℚ)) :
    List (ℤ × ℤ × ℕ) → ℕ → Option BasisRecon
  | [], _ => some ⟨[], [], [], [], []⟩
  | (t, a, n) :: rest, counter =>
    if t = -1 then
      match cc2 with
      | none => none
      | some c2 =>
        (reconShells alphas cc1 cc2 rest (counter + n)).map (fun r =>
          ⟨0 :: 1 :: r.shell_types, a :: a :: r.shell_map, n :: n :: r.nprims,
            (alphas.drop counter).take n ++ (alphas.drop counter).take n ++ r.alphas,
            (cc1.drop counter).take n ++ (c2.drop counter).take n ++ r.con_coeffs⟩)
    else
      (reconShells alphas cc1 cc2 rest (counter + n)).map (fun r =>
        ⟨t :: r.shell_types, a :: r.shell_map, n :: r.nprims,
          (alphas.drop counter).take n ++ r.alphas,
          (cc1.drop counter).take n ++ r.con_coeffs⟩)

/-- Number of primitives of the shells before index `i`: the value of
`counter` relative to its start when shell `i` is processed. -/
def nprimOffset (shells : List (ℤ × ℤ × ℕ)) (i : ℕ) : ℕ :=
  ((shells.take i).map (fun s => s.2.2)).sum

/-! ### The AO permutation (`load`, `permutation_rules`) -/

/-- The static `permutation_rules` table: a fixed reordering block per shell
type; types outside the table raise `KeyError` in Python and get `[]` here
(`inPermDomain` singles out the table's domain). -/
def permRule (t : ℤ) : List ℕ :=
  if t = -9 then List.range 19
  else if t = -8 then List.range 17
  else if t = -7 then List.range 15
  else if t = -6 then List.range 13
  else if t = -5 then List.range 11
  else if t = -4 then List.range 9
  else if t = -3 then List.range 7
  else if t = -2 then List.range 5
  else if t = 0 then [0]
  else if t = 1 then List.range 3
  else if t = 2 then [0, 3, 4, 1, 5, 2]
  else if t = 3 then [0, 4, 5, 3, 9, 6, 1, 8, 7, 2]
  else if t = 4 then (List.range 15).reverse
  else if t = 5 then (List.range 21).reverse
  else if t = 6 then (List.range 28).reverse
  else if t = 7 then (List.range 36).reverse
  else if t = 8 then (List.range 45).reverse
  else if t = 9 then (List.range 55).reverse
  else []

/-- The key set of `permutation_rules`. -/
def inPermDomain (t : ℤ) : Prop := (-9 ≤ t ∧ t ≤ -2) ∨ (0 ≤ t ∧ t ≤ 9)

instance (t : ℤ) : Decidable (inPermDomain t) := by
  unfold inPermDomain
  infer_instance

/-- One iteration of the permutation loop:
`permutation.extend(permutation_rules[shell_type] + len(permutation))`. -/
def permStep (acc : List ℕ) (t : ℤ) : List ℕ :=
  acc ++ (permRule t).map (fun x => x + acc.length)

/-- The permutation built by `load` from the emitted shell types. -/
def buildPermutation (types : List ℤ) : List ℕ := types.foldl permStep []

/-- Sum of the per-shell block sizes. -/
def blockSizes (types : List ℤ) : ℕ := (types.map (fun t => (permRule t).length)).sum

/-! ### Triangular-to-dense expansion (`_triangle_to_dense`) -/

/-- The triangular numbers: `triNum n` is the flat position where row `n` of
a packed lower triangle starts, and `triNum n = n * (n + 1) / 2`. -/
def triNum : ℕ → ℕ
  | 0 => 0
  | n + 1 => triNum n + (n + 1)

/-- The matrix size recovered from the flat length:
`int(np.round((np.sqrt(1 + 8 * len(triangle)) - 1) / 2))`.  On the integer
square `1 + 8 * len = (2 * nrow + 1) ^ 2` the float computation is exact and
the rounding is the identity, so the integer square root gives the same
value. -/
def nrowOf (len : ℕ) : ℕ := (Nat.sqrt (1 + 8 * len) - 1) / 2

/-- The two numpy slice assignments of one loop iteration:
`result[irow, :irow + 1] = seg` followed by `result[:irow + 1, irow] = seg`. -/
def assignRowCol (m : ℕ → ℕ → ℚ) (irow : ℕ) (seg : List ℚ) : ℕ → ℕ → ℚ :=
  fun i j =>
    if j = irow ∧ i ≤ irow then seg.getD i 0
    else if i = irow ∧ j ≤ irow then seg.getD j 0
    else m i j

/-- One iteration of the `_triangle_to_dense` loop: `end = begin + irow + 1`,
copy `triangle[begin:end]` into row and column `irow`, carry `begin = end`. -/
def triStep (triangle : List ℚ) (st : ℕ × (ℕ → ℕ → ℚ)) (irow : ℕ) : ℕ × (ℕ → ℕ → ℚ) :=
  (st.1 + irow + 1, assignRowCol st.2 irow ((triangle.drop st.1).take (irow + 1)))

/-- `_triangle_to_dense`: zero matrix, then per row copy the next `irow + 1`
flat elements (`triangle[begin:end]`) into row and column `irow`.  The square
result is the pair (size, entry function). -/
def triangleToDense (triangle : List ℚ) : ℕ × (ℕ → ℕ → ℚ) :=
  let nrow := nrowOf triangle.length
  let final := (List.range nrow).foldl (triStep triangle) ((0 : ℕ), fun _ _ => (0 : ℚ))
  (nrow, final.2)

/-- Row-major packing of the lower triangle of an `n × n` matrix, the storage
format `_triangle_to_dense` expects (this is the spec's packing direction for
the round-trip property). -/
def packLower (n : ℕ) (M : ℕ → ℕ → ℚ) : List ℚ :=
  (List.range n).flatMap (fun i => (List.range (i + 1)).map (fun j => M i j))

/-- Closed form of the matrix `_triangle_to_dense` builds: entry `(i, j)` is
flat element `triNum (max i j) + min i j`. -/
def denseSpec (tri : List ℚ) (i j : ℕ) : ℚ :=
  if j ≤ i then tri.getD (triNum i + j) 0 else tri.getD (triNum j + i) 0

/-! ### Geometry and charges (`load`, sections A and F) -/

/-- numpy boolean-mask indexing `xs[mask]`. -/
def boolMask {α : Type} (mask : List Bool) (xs : List α) : List α :=
  ((mask.zip xs).filter (fun p => p.1)).map (fun p => p.2)

/-- The geometry/charges part of the `load` result. -/
structure GeoResult where
  numbers : List ℤ
  coordinates : List (ℚ × ℚ × ℚ)
  pseudo_numbers : List ℚ
  centers : List (ℚ × ℚ × ℚ)
  mulliken_charges : Option (List ℚ)
  esp_charges : Option (List ℚ)
  npa_charges : Option (List ℚ)
  deriving DecidableEq

/-- `load` sections A and F: ghost atoms (`pseudo_numbers == 0.0`) are masked
out of `numbers`, the system coordinates, `pseudo_numbers` and the optional
charge arrays, while `obasis["centers"]` keeps the unmasked coordinates. -/
def loadGeometry (numbers : List ℤ) (coordinates : List (ℚ × ℚ × ℚ)) (pseudo : List ℚ)
    (mulliken esp npa : Option (List ℚ)) : GeoResult :=
  let mask := pseudo.map (fun p => decide (p ≠ 0))
  ⟨boolMask mask numbers, boolMask mask coordinates, boolMask mask pseudo, coordinates,
    mulliken.map (boolMask mask), esp.map (boolMask mask), npa.map (boolMask mask)⟩

/-! ### Independent-function count and orbitals (`load`, section D) -/

/-- Python `a or b` on optional numbers: `a` when present and nonzero
(truthy), else `b`. -/
def pyOr (a b : Option ℤ) : Option ℤ :=
  match a with
  | some v => if v ≠ 0 then some v else b
  | none => b

/-- The `nbasis_indep` selection:
`fchk.get("Number of independant functions") or
fchk.get("Number of independent functions")`, then `nbasis` when the result
is `None`. -/
def nbasisIndepOf (independant independent : Option ℤ) (nbasis : ℤ) : ℤ :=
  match pyOr independant independent with
  | none => nbasis
  | some v => v

/-- Occupation vector `np.zeros(n)` with `occs[:k] = 1.0` (the numpy slice
clamps at `n`). -/
def occVec (n k : ℕ) : List ℚ :=
  (List.range n).map (fun i => if i < k then (1 : ℚ) else 0)

/-- `coeffs.reshape(nindep, nb).T` as a row list of the transposed matrix:
entry `(i, j)` is flat element `j * nb + i`. -/
def reshapeT (flat : List ℚ) (nindep nb : ℕ) : List (List ℚ) :=
  (List.range nb).map (fun i => (List.range nindep).map (fun j => flat.getD (j * nb + i) 0))

/-- Exceptions escaping the wavefunction part of `load`. -/
inductive LoadErr where
  | valueError
  | keyError
  | reshapeError
  deriving DecidableEq

/-- Orbital-related entries of the `load` result, with the `dm_full_scf` entry
carried through from section C. -/
structure WfnResult where
  orb_alpha : ℕ × ℕ
  orb_alpha_coeffs : List (List ℚ)
  orb_alpha_energies : List ℚ
  orb_alpha_occs : List ℚ
  orb_beta : Option (ℕ × ℕ)
  orb_beta_coeffs : Option (List (List ℚ))
  orb_beta_energies : Option (List ℚ)
  orb_beta_occs : Option (List ℚ)
  dm_full_scf : Option (List ℚ)
  deriving DecidableEq

/-- `load` section D.  Electron counts must be non-negative with positive sum
(`ValueError`).  With a "Beta Orbital Energies" field the UHF branch reads the
beta fields; otherwise unequal electron counts select the ROHF branch, which
aliases the alpha coefficients/energies, builds the beta occupations, and then
runs `result.pop('dm_full_scf')` — a `KeyError` when section C stored no
"Total SCF Density".  Equal counts leave no beta entry.  A flat coefficient
array whose length does not match `reshape(nbasis_indep, nbasis)` raises in
numpy (`reshapeError`). -/
def loadWavefunction (nbasis nbasisIndep : ℕ) (nalpha nbeta : ℤ)
    (alphaCoeffs alphaEnergies : List ℚ) (betaEnergies betaCoeffs : Option (List ℚ))
    (dmFullScf : Option (List ℚ)) : Except LoadErr WfnResult :=
  if nalpha < 0 ∨ nbeta < 0 ∨ nalpha + nbeta ≤ 0 then .error .valueError
  else if alphaCoeffs.length ≠ nbasisIndep * nbasis then .error .reshapeError
  else
    let acoef := reshapeT alphaCoeffs nbasisIndep nbasis
    let aoccs := occVec nbasisIndep nalpha.toNat
    match betaEnergies with
    | some bE =>
      match betaCoeffs with
      | none => .error .keyError
      | some bC =>
        if bC.length ≠ nbasisIndep * nbasis then .error .reshapeError
        else
          .ok ⟨(nbasis, nbasisIndep), acoef, alphaEnergies, aoccs,
            some (nbasis, nbasisIndep), some (reshapeT bC nbasisIndep nbasis), some bE,
            some (occVec nbasisIndep nbeta.toNat), dmFullScf⟩
    | none =>
      if nbeta ≠ nalpha then
        match dmFullScf with
        | none => .error .keyError
        | some _ =>
          .ok ⟨(nbasis, nbasisIndep), acoef, alphaEnergies, aoccs,
            some (nbasis, nbasisIndep), some acoef, some alphaEnergies,
            some (occVec nbasisIndep nbeta.toNat), none⟩
      else
        .ok ⟨(nbasis, nbasisIndep), acoef, alphaEnergies, aoccs, none, none, none, none,
          dmFullScf⟩

/-! ### C1: the AO permutation is a bijection -/

theorem permRule_perm (t : ℤ) (h : inPermDomain t) :
    (permRule t).Perm (List.range (permRule t).length) := by
  have h9 : t = -9 ∨ t = -8 ∨ t = -7 ∨ t = -6 ∨ t = -5 ∨ t = -4 ∨ t = -3 ∨ t = -2 ∨
      t = 0 ∨ t = 1 ∨ t = 2 ∨ t = 3 ∨ t = 4 ∨ t = 5 ∨ t = 6 ∨ t = 7 ∨ t = 8 ∨ t = 9 := by
    unfold inPermDomain at h
    omega
  rcases h9 with rfl | rfl | rfl | rfl | rfl | rfl | rfl | rfl | rfl | rfl | rfl | rfl | rfl |
    rfl | rfl | rfl | rfl | rfl <;>
    simp only [permRule, List.length_reverse, List.length_range, if_true, if_false,
      reduceIte] <;>
    first
      | exact List.Perm.refl _
      | exact List.reverse_perm _
      | decide

theorem foldl_permStep_length (types : List ℤ) :
    ∀ acc : List ℕ, (types.foldl permStep acc).length = acc.length + blockSizes types := by
  induction types with
  | nil =>
    intro acc
    simp [blockSizes]
  | cons t rest ih =>
    intro acc
    simp only [List.foldl_cons]
    rw [ih]
    simp [permStep, blockSizes]
    omega

theorem foldl_permStep_perm (types : List ℤ) :
    ∀ acc : List ℕ, (∀ t ∈ types, inPermDomain t) → acc.Perm (List.range acc.length) →
      (types.foldl permStep acc).Perm (List.range (acc.length + blockSizes types)) := by
  induction types with
  | nil =>
    intro acc _ hacc
    simpa [blockSizes] using hacc
  | cons t rest ih =>
    intro acc hdom hacc
    simp only [List.foldl_cons]
    have hlen : (permStep acc t).length = acc.length + (permRule t).length := by
      simp [permStep]
    have hstep : (permStep acc t).Perm (List.range (permStep acc t).length) := by
      rw [hlen, List.range_add]
      unfold permStep
      refine List.Perm.append hacc ?_
      refine ((permRule_perm t (hdom t (by simp))).map _).trans ?_
      have hmap : (List.range (permRule t).length).map (fun x => x + acc.length) =
          (List.range (permRule t).length).map (fun x => acc.length + x) :=
        List.map_congr_left (fun x _ => Nat.add_comm x acc.length)
      rw [hmap]
    have h2 := ih (permStep acc t) (fun x hx => hdom x (by simp [hx])) hstep
    have heq : acc.length + blockSizes (t :: rest) = (permStep acc t).length + blockSizes rest := by
      simp only [blockSizes, hlen, List.map_cons, List.sum_cons]
      omega
    rw [heq]
    exact h2

/-- C1: for every list of shell types drawn from the permutation table's
domain, the permutation `load` builds (per shell, the fixed block offset by
the running length) has length the sum of the per-shell block sizes and is a
permutation of `range` of that length, i.e. a bijection on it. -/
theorem load_permutation_bijection (types : List ℤ) (h : ∀ t ∈ types, inPermDomain t) :
    (buildPermutation types).length = blockSizes types ∧
    (buildPermutation types).Perm (List.range (blockSizes types)) := by
  constructor
  · simpa using foldl_permStep_length types []
  · simpa using foldl_permStep_perm types [] h (by simp)

/-- Witness for C1: a concrete shell-type list exercising identity, explicit,
reversed and negative-type blocks. -/
theorem load_permutation_bijection_witness :
    (buildPermutation [0, 1, 2, -2, 4]).length = blockSizes [0, 1, 2, -2, 4] ∧
    (buildPermutation [0, 1, 2, -2, 4]).Perm (List.range (blockSizes [0, 1, 2, -2, 4])) :=
  load_permutation_bijection [0, 1, 2, -2, 4] (by decide)

/-! ### C2: triangular packing round trip -/

theorem two_mul_triNum (n : ℕ) : 2 * triNum n = n * (n + 1) := by
  induction n with
  | zero => rfl
  | succ n ih =>
    show 2 * (triNum n + (n + 1)) = (n + 1) * (n + 2)
    rw [Nat.mul_add, ih]
    ring

theorem nrowOf_triNum (n : ℕ) : nrowOf (triNum n) = n := by
  unfold nrowOf
  have h8 : 1 + 8 * triNum n = (2 * n + 1) * (2 * n + 1) := by
    calc 1 + 8 * triNum n = 1 + 4 * (2 * triNum n) := by ring
    _ = 1 + 4 * (n * (n + 1)) := by rw [two_mul_triNum]
    _ = (2 * n + 1) * (2 * n + 1) := by ring
  rw [h8, Nat.sqrt_eq]
  omega

theorem triNum_succ_le (i n : ℕ) (h : i < n) : triNum i + i + 1 ≤ triNum n := by
  induction n with
  | zero => omega
  | succ n ih =>
    rcases Nat.lt_succ_iff_lt_or_eq.mp h with h2 | h2
    · have := ih h2
      show _ ≤ triNum n + (n + 1)
      omega
    · subst h2
      show _ ≤ triNum i + (i + 1)
      omega

theorem packLower_length (n : ℕ) (M : ℕ → ℕ → ℚ) : (packLower n M).length = triNum n := by
  induction n with
  | zero => rfl
  | succ n ih =>
    unfold packLower at ih ⊢
    rw [List.range_succ, List.flatMap_append]
    simp [ih]
    show triNum n + (n + 1) = triNum (n + 1)
    rfl

theorem getD_drop_take (l : List ℚ) (b L i : ℕ) (h : i < L) :
    ((l.drop b).take L).getD i 0 = l.getD (b + i) 0 := by
  simp [List.getD_eq_getElem?_getD, List.getElem?_take, h, List.getElem?_drop]

theorem foldl_triStep (tri : List ℚ) (k : ℕ) :
    ((List.range k).foldl (triStep tri) ((0 : ℕ), fun _ _ => (0 : ℚ))).1 = triNum k ∧
    ∀ i j, ((List.range k).foldl (triStep tri) ((0 : ℕ), fun _ _ => (0 : ℚ))).2 i j =
      if i < k ∧ j < k then denseSpec tri i j else 0 := by
  induction k with
  | zero =>
    constructor
    · rfl
    · intro i j
      simp
  | succ k ih =>
    obtain ⟨ih1, ih2⟩ := ih
    rw [List.range_succ, List.foldl_append]
    simp only [List.foldl_cons, List.foldl_nil]
    constructor
    · show ((List.range k).foldl (triStep tri) _).1 + k + 1 = triNum (k + 1)
      rw [ih1]
      show triNum k + k + 1 = triNum k + (k + 1)
      omega
    · intro i j
      show assignRowCol _ k ((tri.drop ((List.range k).foldl (triStep tri) _).1).take (k + 1))
        i j = _
      rw [ih1]
      unfold assignRowCol
      by_cases hA : j = k ∧ i ≤ k
      · rw [if_pos hA]
        obtain ⟨hj, hi⟩ := hA
        subst hj
        rw [getD_drop_take tri (triNum j) (j + 1) i (by omega)]
        rw [if_pos ⟨by omega, by omega⟩]
        unfold denseSpec
        by_cases hij : j ≤ i
        · have : i = j := by omega
          subst this
          rw [if_pos (le_refl i)]
        · rw [if_neg hij]
      · rw [if_neg hA]
        by_cases hB : i = k ∧ j ≤ k
        · rw [if_pos hB]
          obtain ⟨hi, hj⟩ := hB
          subst hi
          have hjlt : j < i := by omega
          rw [getD_drop_take tri (triNum i) (i + 1) j (by omega)]
          rw [if_pos ⟨by omega, by omega⟩]
          unfold denseSpec
          rw [if_pos (by omega : j ≤ i)]
        · rw [if_neg hB, ih2 i j]
          by_cases hik : i < k ∧ j < k
          · rw [if_pos hik, if_pos ⟨by omega, by omega⟩]
          · rw [if_neg hik, if_neg (by omega : ¬(i < k + 1 ∧ j < k + 1))]

theorem packLower_getD (M : ℕ → ℕ → ℚ) :
    ∀ n i j, j ≤ i → i < n → (packLower n M).getD (triNum i + j) 0 = M i j := by
  intro n
  induction n with
  | zero => intro i j h1 h2; omega
  | succ n ih =>
    intro i j hj hi
    have hsplit : packLower (n + 1) M =
        packLower n M ++ (List.range (n + 1)).map (fun j => M n j) := by
      show (List.range (n + 1)).flatMap (fun i => (List.range (i + 1)).map (fun j => M i j)) = _
      nth_rewrite 1 [List.range_succ]
      rw [List.flatMap_append, List.flatMap_singleton]
      rfl
    rw [hsplit]
    rcases Nat.lt_succ_iff_lt_or_eq.mp hi with h2 | h2
    · have hidx : triNum i + j < (packLower n M).length := by
        rw [packLower_length]
        have := triNum_succ_le i n h2
        omega
      rw [List.getD_append _ _ _ _ hidx]
      exact ih i j hj h2
    · rw [h2] at hj ⊢
      have hlen : (packLower n M).length = triNum n := packLower_length n M
      rw [List.getD_append_right _ _ _ _ (by omega : (packLower n M).length ≤ triNum n + j)]
      rw [hlen]
      have hsub : triNum n + j - triNum n = j := by omega
      rw [hsub]
      simp [List.getD_eq_getElem?_getD, List.getElem?_map, List.getElem?_range,
        Nat.lt_succ_of_le hj]

/-- C2: packing the lower triangle of a symmetric `n × n` matrix row-major
and expanding it back with `_triangle_to_dense` (which re-derives `n` from
the flat length) reproduces the matrix exactly. -/
theorem triangle_to_dense_roundtrip (n : ℕ) (M : ℕ → ℕ → ℚ)
    (hsym : ∀ i j, i < n → j < n → M i j = M j i) :
    (triangleToDense (packLower n M)).1 = n ∧
    ∀ i j, i < n → j < n → (triangleToDense (packLower n M)).2 i j = M i j := by
  have hlen : (packLower n M).length = triNum n := packLower_length n M
  have hrow : nrowOf (packLower n M).length = n := by rw [hlen, nrowOf_triNum]
  constructor
  · show nrowOf (packLower n M).length = n
    exact hrow
  · intro i j hi hj
    show ((List.range (nrowOf (packLower n M).length)).foldl (triStep (packLower n M))
      ((0 : ℕ), fun _ _ => (0 : ℚ))).2 i j = M i j
    rw [hrow, (foldl_triStep (packLower n M) n).2 i j, if_pos ⟨hi, hj⟩]
    unfold denseSpec
    by_cases hij : j ≤ i
    · rw [if_pos hij]
      exact packLower_getD M n i j hij hi
    · rw [if_neg hij]
      rw [packLower_getD M n j i (by omega) hj]
      exact (hsym i j hi hj).symm

/-- Witness for C2 at a concrete symmetric 2 × 2 matrix. -/
theorem triangle_to_dense_roundtrip_witness :
    (triangleToDense (packLower 2 (fun _ _ => (3 : ℚ)))).1 = 2 ∧
    ∀ i j, i < 2 → j < 2 → (triangleToDense (packLower 2 (fun _ _ => (3 : ℚ)))).2 i j = 3 :=
  triangle_to_dense_roundtrip 2 (fun _ _ => 3) (fun _ _ _ _ => rfl)

/-! ### C3: SP-shell splitting -/

/-- Per-shell emitted types: an SP shell becomes an S and a P shell, any
other shell keeps its type. -/
def spTypes (shells : List (ℤ × ℤ × ℕ)) : List ℤ :=
  shells.flatMap (fun s => if s.1 = -1 then [0, 1] else [s.1])

/-- Per-shell emitted atom indices: an SP shell references its atom twice. -/
def spMap (shells : List (ℤ × ℤ × ℕ)) : List ℤ :=
  shells.flatMap (fun s => if s.1 = -1 then [s.2.1, s.2.1] else [s.2.1])

/-- Per-shell emitted primitive counts. -/
def spNprims (shells : List (ℤ × ℤ × ℕ)) : List ℕ :=
  shells.flatMap (fun s => if s.1 = -1 then [s.2.2, s.2.2] else [s.2.2])

/-- The exponent slice(s) emitted for shell `i`: the `nprims[i]` exponents at
the shell's flat offset, duplicated for an SP shell. -/
def spAlphaBlock (alphas : List ℚ) (shells : List (ℤ × ℤ × ℕ)) (counter i : ℕ) : List ℚ :=
  let s := shells.getD i (0, 0, 0)
  let sl := (alphas.drop (counter + nprimOffset shells i)).take s.2.2
  if s.1 = -1 then sl ++ sl else sl

/-- All emitted exponents, in emission order. -/
def spAlphas (alphas : List ℚ) (shells : List (ℤ × ℤ × ℕ)) (counter : ℕ) : List ℚ :=
  (List.range shells.length).flatMap (spAlphaBlock alphas shells counter)

/-- The coefficient slice(s) emitted for shell `i`: for an SP shell the
`Contraction coefficients` slice then the `P(S=P) Contraction coefficients`
slice, at the same flat offset; otherwise just the former. -/
def spCoeffBlock (cc1 c2 : List ℚ) (shells : List (ℤ × ℤ × ℕ)) (counter i : ℕ) : List ℚ :=
  let s := shells.getD i (0, 0, 0)
  let off := counter + nprimOffset shells i
  if s.1 = -1 then (cc1.drop off).take s.2.2 ++ (c2.drop off).take s.2.2
  else (cc1.drop off).take s.2.2

/-- All emitted contraction coefficients, in emission order. -/
def spCoeffs (cc1 c2 : List ℚ) (shells : List (ℤ × ℤ × ℕ)) (counter : ℕ) : List ℚ :=
  (List.range shells.length).flatMap (spCoeffBlock cc1 c2 shells counter)

theorem nprimOffset_zero (shells : List (ℤ × ℤ × ℕ)) : nprimOffset shells 0 = 0 := by
  simp [nprimOffset]

theorem nprimOffset_cons (s : ℤ × ℤ × ℕ) (rest : List (ℤ × ℤ × ℕ)) (i : ℕ) :
    nprimOffset (s :: rest) (i + 1) = s.2.2 + nprimOffset rest i := by
  simp [nprimOffset, List.take_succ_cons]

theorem spAlphaBlock_shift (alphas : List ℚ) (s : ℤ × ℤ × ℕ) (rest : List (ℤ × ℤ × ℕ))
    (counter : ℕ) :
    (fun i => spAlphaBlock alphas (s :: rest) counter i.succ) =
      spAlphaBlock alphas rest (counter + s.2.2) := by
  funext i
  show spAlphaBlock alphas (s :: rest) counter (i + 1) = _
  unfold spAlphaBlock
  rw [List.getD_cons_succ, nprimOffset_cons, ← Nat.add_assoc]

theorem spAlphas_cons (alphas : List ℚ) (s : ℤ × ℤ × ℕ) (rest : List (ℤ × ℤ × ℕ))
    (counter : ℕ) :
    spAlphas alphas (s :: rest) counter =
      spAlphaBlock alphas (s :: rest) counter 0 ++ spAlphas alphas rest (counter + s.2.2) := by
  unfold spAlphas
  rw [List.length_cons, List.range_succ_eq_map, List.flatMap_cons, List.flatMap_map,
    spAlphaBlock_shift]

theorem spCoeffBlock_shift (cc1 c2 : List ℚ) (s : ℤ × ℤ × ℕ) (rest : List (ℤ × ℤ × ℕ))
    (counter : ℕ) :
    (fun i => spCoeffBlock cc1 c2 (s :: rest) counter i.succ) =
      spCoeffBlock cc1 c2 rest (counter + s.2.2) := by
  funext i
  show spCoeffBlock cc1 c2 (s :: rest) counter (i + 1) = _
  unfold spCoeffBlock
  rw [List.getD_cons_succ, nprimOffset_cons, ← Nat.add_assoc]

theorem spCoeffs_cons (cc1 c2 : List ℚ) (s : ℤ × ℤ × ℕ) (rest : List (ℤ × ℤ × ℕ))
    (counter : ℕ) :
    spCoeffs cc1 c2 (s :: rest) counter =
      spCoeffBlock cc1 c2 (s :: rest) counter 0 ++ spCoeffs cc1 c2 rest (counter + s.2.2) := by
  unfold spCoeffs
  rw [List.length_cons, List.range_succ_eq_map, List.flatMap_cons, List.flatMap_map,
    spCoeffBlock_shift]

/-- C3: with the `P(S=P)` coefficient array present, the shell loop of `load`
always succeeds and its output is the per-shell closed form: an SP shell
(type `-1`) yields exactly the two shells `0` and `1` on the same atom with
the same primitive count and the same exponent slice, coefficients taken from
the first respectively the `P(S=P)` array; any other shell is emitted once
unchanged; and each shell's slices start at the offset accumulated from the
primitive counts of the shells before it (`counter` advances by `n` per
original shell). -/
theorem reconShells_spec (alphas cc1 c2 : List ℚ) :
    ∀ (shells : List (ℤ × ℤ × ℕ)) (counter : ℕ),
      reconShells alphas cc1 (some c2) shells counter = some
        ⟨spTypes shells, spMap shells, spNprims shells,
          spAlphas alphas shells counter, spCoeffs cc1 c2 shells counter⟩ := by
  intro shells
  induction shells with
  | nil =>
    intro counter
    rfl
  | cons s rest ih =>
    intro counter
    obtain ⟨t, a, n⟩ := s
    have hblockA : spAlphaBlock alphas ((t, a, n) :: rest) counter 0 =
        (if t = -1 then ((alphas.drop counter).take n) ++ ((alphas.drop counter).take n)
         else (alphas.drop counter).take n) := by
      unfold spAlphaBlock
      rw [List.getD_cons_zero, nprimOffset_zero, Nat.add_zero]
    have hblockC : spCoeffBlock cc1 c2 ((t, a, n) :: rest) counter 0 =
        (if t = -1 then ((cc1.drop counter).take n) ++ ((c2.drop counter).take n)
         else (cc1.drop counter).take n) := by
      unfold spCoeffBlock
      rw [List.getD_cons_zero, nprimOffset_zero, Nat.add_zero]
    by_cases ht : t = -1
    · simp only [reconShells, if_pos ht, ih (counter + n), Option.map_some']
      rw [spAlphas_cons, spCoeffs_cons, hblockA, hblockC]
      simp [spTypes, spMap, spNprims, ht, List.flatMap_cons]
    · simp only [reconShells, if_neg ht, ih (counter + n), Option.map_some']
      rw [spAlphas_cons, spCoeffs_cons, hblockA, hblockC]
      simp [spTypes, spMap, spNprims, ht, List.flatMap_cons]


/-! ### C4: ROHF beta orbitals and the `dm_full_scf` pop -/

/-- C4 counterexample: an ROHF input (`nalpha = 1`, `nbeta = 0`, no beta
energies) whose file had no "Total SCF Density" field.  The claim says the
result then contains a beta entry and lacks `dm_full_scf` "whether or not" the
field was present; in fact `result.pop('dm_full_scf')` raises `KeyError`, so
no result is produced at all. -/
theorem rohf_pop_keyerror_counterexample :
    loadWavefunction 1 1 1 0 [1] [1] none none none = .error .keyError := rfl

/-- C4 amended: in the ROHF case (unequal electron counts, no beta-energies
field) the beta coefficients and energies alias the alpha arrays verbatim, the
beta occupation vector has 1.0 exactly in the first `nbeta` slots, and
`dm_full_scf` is absent from the result — provided a "Total SCF Density" field
was present; when it was absent, `load` raises `KeyError` and returns no
result. -/
theorem rohf_beta_aliasing (nbasis nbasisIndep : ℕ) (nalpha nbeta : ℤ)
    (alphaCoeffs alphaEnergies : List ℚ) (dm : List ℚ)
    (h0 : 0 ≤ nalpha) (h1 : 0 ≤ nbeta) (h2 : 0 < nalpha + nbeta) (h3 : nbeta ≠ nalpha)
    (h4 : alphaCoeffs.length = nbasisIndep * nbasis) :
    (loadWavefunction nbasis nbasisIndep nalpha nbeta alphaCoeffs alphaEnergies none none
        (some dm) = .ok
      { orb_alpha := (nbasis, nbasisIndep),
        orb_alpha_coeffs := reshapeT alphaCoeffs nbasisIndep nbasis,
        orb_alpha_energies := alphaEnergies,
        orb_alpha_occs := occVec nbasisIndep nalpha.toNat,
        orb_beta := some (nbasis, nbasisIndep),
        orb_beta_coeffs := some (reshapeT alphaCoeffs nbasisIndep nbasis),
        orb_beta_energies := some alphaEnergies,
        orb_beta_occs := some (occVec nbasisIndep nbeta.toNat),
        dm_full_scf := none }) ∧
    loadWavefunction nbasis nbasisIndep nalpha nbeta alphaCoeffs alphaEnergies none none none
      = .error .keyError := by
  have hg : ¬(nalpha < 0 ∨ nbeta < 0 ∨ nalpha + nbeta ≤ 0) := by omega
  have hr : ¬(alphaCoeffs.length ≠ nbasisIndep * nbasis) := by simp [h4]
  constructor
  · simp only [loadWavefunction, if_neg hg, if_neg hr, if_pos h3]
  · simp only [loadWavefunction, if_neg hg, if_neg hr, if_pos h3]

/-- Witness for C4 (amended) at `nalpha = 1`, `nbeta = 0`. -/
theorem rohf_beta_aliasing_witness :
    (loadWavefunction 1 1 1 0 [1] [2] none none (some [5]) = .ok
      { orb_alpha := (1, 1),
        orb_alpha_coeffs := reshapeT [1] 1 1,
        orb_alpha_energies := [2],
        orb_alpha_occs := occVec 1 (1 : ℤ).toNat,
        orb_beta := some (1, 1),
        orb_beta_coeffs := some (reshapeT [1] 1 1),
        orb_beta_energies := some [2],
        orb_beta_occs := some (occVec 1 (0 : ℤ).toNat),
        dm_full_scf := none }) ∧
    loadWavefunction 1 1 1 0 [1] [2] none none none = .error .keyError :=
  rohf_beta_aliasing 1 1 1 0 [1] [2] [5] (by decide) (by decide) (by decide) (by decide) rfl

/-! ### C5: the independent-function count prefers the misspelled field -/

/-- C5 counterexample: with both fields present (misspelled variant 3,
correctly spelled variant 5) the code yields 3 — the misspelled field, not
the correctly spelled one the claim says is preferred. -/
theorem nbasisIndep_counterexample :
    nbasisIndepOf (some 3) (some 5) 9 = 3 ∧ (3 : ℤ) ≠ 5 := by
  constructor
  · rfl
  · decide

/-- C5 amended: the lookup order is misspelled-first.  The misspelled
"independant" field wins whenever present with a nonzero (truthy) value; the
correctly spelled field is used when the misspelled one is absent or zero;
`n_basis` is used when the `or`-chain produces `None`. -/
theorem nbasisIndep_selection :
    (∀ (v : ℤ) (w : Option ℤ) (nb : ℤ), v ≠ 0 → nbasisIndepOf (some v) w nb = v) ∧
    (∀ (w nb : ℤ), nbasisIndepOf none (some w) nb = w ∧
      nbasisIndepOf (some 0) (some w) nb = w) ∧
    (∀ nb : ℤ, nbasisIndepOf none none nb = nb ∧ nbasisIndepOf (some 0) none nb = nb) := by
  refine ⟨?_, ?_, ?_⟩
  · intro v w nb hv
    simp [nbasisIndepOf, pyOr, hv]
  · intro w nb
    exact ⟨rfl, rfl⟩
  · intro nb
    exact ⟨rfl, rfl⟩

/-- Witness for C5 (amended): the misspelled field, present and nonzero,
wins over the correctly spelled one. -/
theorem nbasisIndep_selection_witness : nbasisIndepOf (some 3) (some 5) 9 = 3 :=
  nbasisIndep_selection.1 3 (some 5) 9 (by decide)

/-! ### C6: ghost-atom masking -/

theorem boolMask_pred {α : Type} (pseudo : List ℚ) :
    ∀ xs : List α, boolMask (pseudo.map (fun p => decide (p ≠ 0))) xs =
      ((xs.zip pseudo).filter (fun q => decide (q.2 ≠ 0))).map (fun q => q.1) := by
  induction pseudo with
  | nil =>
    intro xs
    cases xs <;> rfl
  | cons p ps ih =>
    intro xs
    cases xs with
    | nil => rfl
    | cons x xt =>
      have htail := ih xt
      unfold boolMask at htail ⊢
      by_cases hp : p = 0
      · simpa [hp] using htail
      · simpa [hp] using htail

theorem filter_zip_self (pseudo : List ℚ) :
    ((pseudo.zip pseudo).filter (fun q => decide (q.2 ≠ 0))).map (fun q => q.1) =
      pseudo.filter (fun p => decide (p ≠ 0)) := by
  induction pseudo with
  | nil => rfl
  | cons p ps ih =>
    by_cases hp : p = 0 <;> simpa [hp] using ih

/-- C6: atoms with `pseudo_number = 0.0` are excluded (in order) from the
result's numbers, coordinates, pseudo_numbers and optional charge arrays,
while the basis-set centers keep all atoms, ghosts included. -/
theorem loadGeometry_ghost_masking (numbers : List ℤ) (coordinates : List (ℚ × ℚ × ℚ))
    (pseudo : List ℚ) (mulliken esp npa : Option (List ℚ)) :
    (loadGeometry numbers coordinates pseudo mulliken esp npa).centers = coordinates ∧
    (loadGeometry numbers coordinates pseudo mulliken esp npa).numbers =
      ((numbers.zip pseudo).filter (fun q => decide (q.2 ≠ 0))).map (fun q => q.1) ∧
    (loadGeometry numbers coordinates pseudo mulliken esp npa).coordinates =
      ((coordinates.zip pseudo).filter (fun q => decide (q.2 ≠ 0))).map (fun q => q.1) ∧
    (loadGeometry numbers coordinates pseudo mulliken esp npa).pseudo_numbers =
      pseudo.filter (fun p => decide (p ≠ 0)) ∧
    (loadGeometry numbers coordinates pseudo mulliken esp npa).mulliken_charges =
      mulliken.map (fun ch =>
        ((ch.zip pseudo).filter (fun q => decide (q.2 ≠ 0))).map (fun q => q.1)) ∧
    (loadGeometry numbers coordinates pseudo mulliken esp npa).esp_charges =
      esp.map (fun ch =>
        ((ch.zip pseudo).filter (fun q => decide (q.2 ≠ 0))).map (fun q => q.1)) ∧
    (loadGeometry numbers coordinates pseudo mulliken esp npa).npa_charges =
      npa.map (fun ch =>
        ((ch.zip pseudo).filter (fun q => decide (q.2 ≠ 0))).map (fun q => q.1)) := by
  refine ⟨rfl, boolMask_pred pseudo numbers, boolMask_pred pseudo coordinates, ?_, ?_, ?_, ?_⟩
  · rw [show (loadGeometry numbers coordinates pseudo mulliken esp npa).pseudo_numbers =
      boolMask (pseudo.map (fun p => decide (p ≠ 0))) pseudo from rfl]
    rw [boolMask_pred pseudo pseudo, filter_zip_self]
  · cases mulliken with
    | none => rfl
    | some ch => simp only [loadGeometry, Option.map_some', boolMask_pred pseudo ch]
  · cases esp with
    | none => rfl
    | some ch => simp only [loadGeometry, Option.map_some', boolMask_pred pseudo ch]
  · cases npa with
    | none => rfl
    | some ch => simp only [loadGeometry, Option.map_some', boolMask_pred pseudo ch]


/-! ### Scanner step lemmas and concrete demo material (C7 - C10) -/

theorem scanFields_stop (fn : List Char) (stream : List (List Char))
    (wanted : Option (List Label)) (store : Store)
    (h : readField fn wanted store stream = .stop) :
    scanFields fn stream wanted store = .ok store := by
  rw [scanFields.eq_def]
  split
  next heq => rfl
  next e heq => rw [h] at heq; cases heq
  next s2 w2 r2 heq => rw [h] at heq; cases heq

theorem scanFields_fail (fn : List Char) (stream : List (List Char))
    (wanted : Option (List Label)) (store : Store) (e : ScanError)
    (h : readField fn wanted store stream = .fail e) :
    scanFields fn stream wanted store = .error e := by
  rw [scanFields.eq_def]
  split
  next heq => rw [h] at heq; cases heq
  next e2 heq =>
    rw [h] at heq
    cases heq
    rfl
  next s2 w2 r2 heq => rw [h] at heq; cases heq

theorem scanFields_cont (fn : List Char) (stream : List (List Char))
    (wanted : Option (List Label)) (store : Store) (store2 : Store)
    (wanted2 : Option (List Label)) (rest : List (List Char))
    (h : readField fn wanted store stream = .cont store2 wanted2 rest) :
    scanFields fn stream wanted store = scanFields fn rest wanted2 store2 := by
  rw [scanFields.eq_def]
  split
  next heq => rw [h] at heq; cases heq
  next e heq => rw [h] at heq; cases heq
  next s2 w2 r2 heq =>
    rw [h] at heq
    cases heq
    rfl

/-- Pad a label out to the 43-column label field of a header line. -/
def padLabel (s : List Char) : List Char := s ++ List.replicate (43 - s.length) ' '

/-- The header token declaring each datatype. -/
def dtWord : DType → List Char
  | .i => ['I']
  | .r => ['R']

/-- A small well-formed FCHK file: title and command lines, then an `I`
scalar, an `R` scalar and an `I` array field. -/
def demoLines : List (List Char) :=
  [("demo title".data), ("cmd lot".data),
   padLabel ("A".data) ++ ("I            1".data),
   padLabel ("B".data) ++ ("R    2.5".data),
   padLabel ("C".data) ++ ("I N= 2".data),
   ("  7  8".data)]

/-! ### C7: no filtering without a wanted set, but `__init__` breaks it -/

/-- C7 (code bug): when no wanted-label set is active the scanner itself
filters nothing (a field is only ever skipped without being typed when its
header carries no tokens after column 43) and a whole well-formed file is
read into the store — but `FCHKFile.__init__` evaluates `set(field_labels)`
unconditionally, so the documented `field_labels=None` default raises
`TypeError` before any line is read, despite `_read`'s own comment "if fields
is None, all fields are read". -/
theorem scanner_none_reads_all :
    fchkNew ("f".data) demoLines none = .error .typeError ∧
    (∀ (line : List Char) (rest : List (List Char)),
      findHeader (line :: rest) none = .skipCont none rest → splitWs (line.drop 43) = []) ∧
    fchkRead ("f".data) demoLines none = .ok
      ⟨("demo title".data), ("cmd".data), ("lot".data), none,
        [(("A".data), .scalar (.iv 1)), (("B".data), .scalar (.rv ⟨25, -1⟩)),
         (("C".data), .arr [.iv 7, .iv 8])]⟩ := by
  refine ⟨rfl, ?_, ?_⟩
  · intro line rest h
    cases hs : splitWs (line.drop 43) with
    | nil => rfl
    | cons w ws =>
      exfalso
      simp only [findHeader, hs] at h
      by_cases hI : w = ['I']
      · rw [if_pos hI] at h
        cases h
      · rw [if_neg hI] at h
        by_cases hR : w = ['R']
        · rw [if_pos hR] at h
          cases h
        · rw [if_neg hR] at h
          have := findHeader_skip_lt rest none none rest h
          omega
  · have hscan : scanFields ("f".data) (demoLines.drop 2) none [] = .ok
        [(("A".data), FVal.scalar (.iv 1)), (("B".data), FVal.scalar (.rv ⟨25, -1⟩)),
         (("C".data), FVal.arr [.iv 7, .iv 8])] := by
      rw [scanFields_cont _ _ _ _ [(("A".data), .scalar (.iv 1))] none (demoLines.drop 3)
        (by decide)]
      rw [scanFields_cont _ _ _ _
        [(("A".data), .scalar (.iv 1)), (("B".data), .scalar (.rv ⟨25, -1⟩))] none
        (demoLines.drop 4) (by decide)]
      rw [scanFields_cont _ _ _ _
        [(("A".data), .scalar (.iv 1)), (("B".data), .scalar (.rv ⟨25, -1⟩)),
         (("C".data), .arr [.iv 7, .iv 8])] none [] (by decide)]
      exact scanFields_stop _ _ _ _ (by decide)
    simp only [fchkRead]
    rw [hscan]
    rfl

/-- Witness for C7's universal part: on the empty stream the unfiltered
scanner stops only at end of input. -/
theorem scanner_none_reads_all_witness :
    splitWs ((padLabel ("X".data)).drop 43) = [] :=
  scanner_none_reads_all.2.1 (padLabel ("X".data)) [] (by decide)

/-! ### C8: scalar conversion failures are tolerated, array ones are fatal -/

/-- C8: the conversion-failure handling is asymmetric.  (1) A typed header
whose scalar value fails to convert makes `read_field` return `True` with the
store untouched (silent skip).  (2) A token that fails to convert during an
array fill aborts with the fatal `IOError` naming the offending token and the
filename.  (3) A failing `read_field` aborts the whole scanning loop with
that error. -/
theorem conversion_failure_asymmetry :
    (∀ (fn line : List Char) (rest : List (List Char)) (store : Store) (dt : DType)
        (tok : List Char),
      splitWs (line.drop 43) = [dtWord dt, tok] → pyConv dt tok = none →
      readField fn none store (line :: rest) = .cont store none rest) ∧
    (∀ (dt : DType) (fn : List Char) (len : ℕ) (pre : List (List Char)) (w : List Char)
        (post : List (List Char)) (acc : List Elem),
      (∀ x ∈ pre, (npConv dt x).isSome) → npConv dt w = none →
      acc.length + pre.length ≤ len →
      fillWords dt fn len (pre ++ w :: post) acc = .error (.badToken w fn)) ∧
    (∀ (fn : List Char) (stream : List (List Char)) (wanted : Option (List Label))
        (store : Store) (e : ScanError),
      readField fn wanted store stream = .fail e →
      scanFields fn stream wanted store = .error e) := by
  refine ⟨?_, ?_, ?_⟩
  · intro fn line rest store dt tok hsplit hconv
    have hfh : findHeader (line :: rest) none =
        .found dt (trimWs (line.take 43)) [dtWord dt, tok] none rest := by
      cases dt <;> simp [findHeader, hsplit, dtWord]
    simp [readField, hfh, hconv]
  · intro dt fn len pre
    induction pre with
    | nil =>
      intro w post acc hpre hw hlen
      simp [fillWords, hw]
    | cons x xs ih =>
      intro w post acc hpre hw hlen
      have hx := hpre x (by simp)
      obtain ⟨e2, he2⟩ := Option.isSome_iff_exists.mp hx
      simp only [List.cons_append, fillWords, he2]
      rw [if_pos (by simp only [List.length_cons] at hlen; omega)]
      exact ih w post (acc ++ [e2]) (fun y hy => hpre y (by simp [hy])) hw
        (by simp only [List.length_append, List.length_cons, List.length_nil] at hlen ⊢; omega)
  · intro fn stream wanted store e h
    exact scanFields_fail fn stream wanted store e h

/-- Witness for C8: a concrete skipped scalar, a concrete fatal array token
and the resulting aborted scan. -/
theorem conversion_failure_asymmetry_witness :
    readField ("f".data) none [] [padLabel ("X".data) ++ ("I  12q".data)] =
      .cont [] none [] ∧
    fillWords .i ("f".data) 2 [("5".data), ("q".data)] [] =
      .error (.badToken ("q".data) ("f".data)) ∧
    scanFields ("f".data) [padLabel ("N".data) ++ ("I N= 1".data), ("q".data)] none [] =
      .error (.badToken ("q".data) ("f".data)) := by
  refine ⟨?_, ?_, ?_⟩
  · exact conversion_failure_asymmetry.1 ("f".data) _ [] [] .i ("12q".data) (by decide)
      (by decide)
  · exact conversion_failure_asymmetry.2.1 .i ("f".data) 2 [("5".data)] ("q".data) [] []
      (by decide) (by decide) (by decide)
  · exact conversion_failure_asymmetry.2.2 ("f".data) _ none [] _ (by decide)

/-! ### C9: extra tokens on the final array line -/

/-- C9 counterexample: the header declares `N= 1` and the continuation line
carries the final element plus one extra non-convertible token.  The claim
predicts an `IndexError` for any extra token; in fact `datatype(word)` is
evaluated first, so this input fails with the documented `IOError`
(`badToken`), not `IndexError`. -/
theorem overfull_line_counterexample :
    scanFields ("f".data) [padLabel ("Nums".data) ++ ("I N= 1".data), ("5 abc".data)]
        none [] = .error (.badToken ("abc".data) ("f".data)) ∧
    ScanError.badToken ("abc".data) ("f".data) ≠ ScanError.indexError := by
  constructor
  · exact scanFields_fail _ _ _ _ _ (by decide)
  · decide

/-- C9 amended: the fill consumes every token of the line; once `length`
cells are assigned, the next token that *converts* to the declared type hits
the out-of-range numpy assignment and the parse fails with `IndexError`,
which is none of the documented error kinds (a non-convertible extra token
fails as `badToken` instead, see the counterexample). -/
theorem overfull_line_indexerror :
    (∀ (dt : DType) (fn : List Char) (len : ℕ) (pre : List (List Char)) (w : List Char)
        (post : List (List Char)) (acc : List Elem) (e : Elem),
      (∀ x ∈ pre, (npConv dt x).isSome) → acc.length + pre.length = len →
      npConv dt w = some e →
      fillWords dt fn len (pre ++ w :: post) acc = .error .indexError) ∧
    scanFields ("f".data) [padLabel ("Nums".data) ++ ("I N= 1".data), ("5 7".data)] none []
      = .error .indexError := by
  constructor
  · intro dt fn len pre
    induction pre with
    | nil =>
      intro w post acc e hpre hlen hw
      simp only [List.nil_append, fillWords, hw]
      rw [if_neg (by simp only [List.length_nil] at hlen; omega)]
    | cons x xs ih =>
      intro w post acc e hpre hlen hw
      have hx := hpre x (by simp)
      obtain ⟨e2, he2⟩ := Option.isSome_iff_exists.mp hx
      simp only [List.cons_append, fillWords, he2]
      rw [if_pos (by simp only [List.length_cons] at hlen; omega)]
      exact ih w post (acc ++ [e2]) e (fun y hy => hpre y (by simp [hy]))
        (by simp only [List.length_append, List.length_cons, List.length_nil] at hlen ⊢; omega) hw
  · exact scanFields_fail _ _ _ _ _ (by decide)

/-- Witness for C9 (amended): length-1 array, line `5 7` — the extra
convertible token `7` triggers the out-of-bounds assignment. -/
theorem overfull_line_indexerror_witness :
    fillWords .i ("f".data) 1 [("5".data), ("7".data)] [] = .error .indexError :=
  overfull_line_indexerror.1 .i ("f".data) 1 [("5".data)] ("7".data) [] [] (.iv 7)
    (by decide) (by decide) (by decide)

/-! ### C10: skipping a field leaves its continuation lines in the stream -/

/-- C10: skipping a field whose label is not in the (nonempty) wanted set
consumes exactly the header line, leaving store and wanted set unchanged; the
array continuation lines stay in the stream and are processed as candidate
header lines themselves.  Concretely, with wanted label "Total Energy", a
skipped array field whose continuation line's first 43 columns spell
"Total Energy" gets stored as a bogus "Total Energy" field read from that
continuation line. -/
theorem skip_leaves_continuation_lines :
    (∀ (fn line : List Char) (rest : List (List Char)) (wl : List Label) (store : Store),
      wl ≠ [] → trimWs (line.take 43) ∉ wl →
      readField fn (some wl) store (line :: rest) = .cont store (some wl) rest) ∧
    scanFields ("f".data)
      [padLabel ("Skipped".data) ++ ("I N= 2".data),
       padLabel ("Total Energy".data) ++ ("R 3.5".data)]
      (some [("Total Energy".data)]) [] =
      .ok [(("Total Energy".data), .scalar (.rv ⟨35, -1⟩))] := by
  constructor
  · intro fn line rest wl store hne hnin
    have hfh : findHeader (line :: rest) (some wl) = .skipCont (some wl) rest := by
      simp only [findHeader]
      rw [if_neg (by simp [List.isEmpty_iff, hne]), if_neg hnin]
    simp [readField, hfh]
  · rw [scanFields_cont _ _ _ _ [] (some [("Total Energy".data)])
      [padLabel ("Total Energy".data) ++ ("R 3.5".data)] (by decide)]
    rw [scanFields_cont _ _ _ _ [(("Total Energy".data), .scalar (.rv ⟨35, -1⟩))]
      (some []) [] (by decide)]
    exact scanFields_stop _ _ _ _ (by decide)

/-- Witness for C10's universal part: skipping an unwanted header consumes
one line and changes nothing else. -/
theorem skip_leaves_continuation_lines_witness :
    readField ("f".data) (some [("A".data)]) [] [padLabel ("B".data) ++ ("I 1".data)] =
      .cont [] (some [("A".data)]) [] :=
  skip_leaves_continuation_lines.1 ("f".data) _ [] [("A".data)] [] (by decide) (by decide)

end Iodata
